import Mathlib

/- Verification development for the pokemon-api repository: a shallow
   embedding of src/main.py and src/scrape_senators.py, with theorems
   checking the specification claims against the embedded code. -/

namespace Util

/-- Python whitespace test, used by str.strip() and by the regex class \s. -/
def isPySpace (c : Char) : Bool := c.isWhitespace

/-- Python str.strip(): remove leading and trailing whitespace. -/
def pyStrip (s : String) : String :=
  ⟨((s.data.dropWhile isPySpace).reverse.dropWhile isPySpace).reverse⟩

/-- listStarts pre l: pre occurs at the start of l. -/
def listStarts : List Char → List Char → Bool
  | [], _ => true
  | _ :: _, [] => false
  | a :: as, b :: bs => (a == b) && listStarts as bs

/-- listContains needle hay: needle occurs as a contiguous run inside hay
    (Python needle in hay). -/
def listContains (needle : List Char) : List Char → Bool
  | [] => needle.isEmpty
  | c :: rest => listStarts needle (c :: rest) || listContains needle rest

/-- containsSub hay needle: Python membership test needle in hay on strings. -/
def containsSub (hay needle : String) : Bool := listContains needle.data hay.data

/-- strStarts s pre: Python s.startswith(pre). -/
def strStarts (s pre : String) : Bool := listStarts pre.data s.data

/-- Python str.lower(); every input in this program is ASCII, for which
    Char.toLower agrees with Python. -/
def pyLower (s : String) : String := ⟨s.data.map Char.toLower⟩

/-- Matcher for the regex \s*\[\s*\d+\s*\] at the head of a character list
    (src/scrape_senators.py line 89): returns the remainder after the
    matched text, or none when there is no match here. -/
def matchCite (l : List Char) : Option (List Char) :=
  match l.dropWhile isPySpace with
  | '[' :: t1 =>
    let s2 := t1.dropWhile isPySpace
    match s2.takeWhile Char.isDigit with
    | [] => none
    | _ :: _ =>
      match (s2.dropWhile Char.isDigit).dropWhile isPySpace with
      | ']' :: t3 => some t3
      | _ => none
  | _ => none

/-- Scan of Python re.sub(r"\s*\[\s*\d+\s*\]", "", text): walk left to
    right and drop every non-overlapping match.  The Nat argument is
    recursion fuel; removeBrackets passes the list length, which always
    suffices because a successful match consumes at least one character
    of the position it starts from. -/
def removeBracketsAux : Nat → List Char → List Char
  | 0, l => l
  | _ + 1, [] => []
  | fuel + 1, c :: rest =>
    match matchCite (c :: rest) with
    | some rem => removeBracketsAux fuel rem
    | none => c :: removeBracketsAux fuel rest

/-- Python re.sub(r"\s*\[\s*\d+\s*\]", "", s) from src/scrape_senators.py
    line 89. -/
def removeBrackets (s : String) : String := ⟨removeBracketsAux s.data.length s.data⟩

end Util

namespace Poke

/-- Parsed JSON body produced by response.json(); its internal structure is
    never inspected by get_pokemon_data, so it is kept abstract. -/
abbrev JsonBody := String

/-- Exceptions that requests.get itself can raise; every constructor is a
    subclass of requests.exceptions.RequestException and so is caught by
    the handler in get_pokemon_data. -/
inductive ReqException where
  | connectionError (msg : String)
  | timeout (msg : String)
  | generic (msg : String)
deriving DecidableEq

/-- Python str(e) for a raised exception. -/
def excMsg : ReqException → String
  | .connectionError m => m
  | .timeout m => m
  | .generic m => m

/-- An HTTP response: raise_for_status() raises HTTPError (also a
    RequestException) exactly when httpErr holds some message. -/
structure HttpResponse where
  httpErr : Option String
  body : JsonBody
deriving DecidableEq

/-- Outcome of one call to requests.get(url). -/
inductive GetResult where
  | raised (e : ReqException)
  | response (r : HttpResponse)
deriving DecidableEq

/-- URL built by get_pokemon_data (src/main.py line 13). -/
def pokemonURL (name : String) : String :=
  "https://pokeapi.co/api/v2/pokemon/" ++ Util.pyLower name

/-- get_pokemon_data (src/main.py lines 3-21).  env gives the outcome of
    requests.get at each URL; the result pairs the returned value with the
    list of console lines the function prints. -/
def get_pokemon_data (env : String → GetResult) (name : String) :
    Option JsonBody × List String :=
  match env (pokemonURL name) with
  | .raised e => (none, ["Error fetching Pokemon data: " ++ excMsg e])
  | .response r =>
    match r.httpErr with
    | some m => (none, ["Error fetching Pokemon data: " ++ m])
    | none => (some r.body, [])

/-- Two strings are the same up to letter case. -/
def eqUpToCase (s t : String) : Prop :=
  s.data.map Char.toLower = t.data.map Char.toLower

end Poke

namespace Scrape

/-- An anchor element; href is none when the attribute is absent
    (tag.get("href", "") then yields "", while tag["href"] raises). -/
structure AData where
  href : Option String
deriving DecidableEq, Repr

/-- A sup (footnote marker) element inside a party cell: its first anchor
    child, if any, and its own rendered text such as "[b]". -/
structure SupData where
  link : Option AData
  marker : String
deriving DecidableEq, Repr

/-- Content of a td cell: text fragments interleaved with sup footnote
    markers.  get_text concatenates everything; decomposing the sups and
    then calling get_text keeps only the fragments. -/
inductive TdNode where
  | frag (s : String)
  | sup (d : SupData)
deriving DecidableEq, Repr

/-- A td cell: whether it carries the attribute pair rowspan="2", and its
    content nodes.  The first anchor of the cell (td.find("a")) is the
    first anchor reachable in its nodes; infobox cells use IbCell below
    instead. -/
structure TdData where
  rowspan2 : Bool
  nodes : List TdNode
deriving DecidableEq, Repr

/-- A th row-header cell of the roster table: its stripped text
    (get_text(strip=True)) and its first anchor child (th.find("a")). -/
structure ThData where
  text : String
  link : Option AData
deriving DecidableEq, Repr

/-- One cell of a roster-table row. -/
inductive Cell where
  | th (d : ThData)
  | td (d : TdData)
deriving DecidableEq, Repr

/-- A roster-table row is its list of cells in document order. -/
abbrev Row := List Cell

/-- A footnote glossary entry: an li element with its id and, when the
    entry has a span of class reference-text, that span's text as
    get_text(" ", strip=True) returns it. -/
structure LiData where
  id : String
  refText : Option String
deriving DecidableEq, Repr

/-- The parsed roster document: the rows of the senators table
    (tables[3] of the page) and every li element of the document, in
    document order, as soup.find("li", id=...) searches them. -/
structure RosterDoc where
  rows : List Row
  lis : List LiData
deriving DecidableEq, Repr

/-- Text of one td node as get_text(strip=True) renders it: each string is
    stripped before concatenation. -/
def nodeTextStripped : TdNode → String
  | .frag s => Util.pyStrip s
  | .sup d => Util.pyStrip d.marker

/-- td.get_text(strip=True) over all nodes, sups included (used for the
    state cell, whose sups the code never removes). -/
def tdTextAll (d : TdData) : String :=
  String.join (d.nodes.map nodeTextStripped)

/-- td.get_text(strip=True) after every sup child has been decomposed:
    only the plain text fragments remain. -/
def tdTextClean (d : TdData) : String :=
  String.join (d.nodes.filterMap (fun n =>
    match n with
    | .frag s => some (Util.pyStrip s)
    | .sup _ => none))

/-- row.find("td", rowspan="2") (src/scrape_senators.py line 59): the first
    td of the row carrying rowspan="2". -/
def findStateCell (row : Row) : Option TdData :=
  row.findSome? (fun c =>
    match c with
    | .td d => if d.rowspan2 then some d else none
    | .th _ => none)

/-- row.find("th") (line 64) together with the cells that follow it, from
    which the later sibling searches start. -/
def findThSplit : Row → Option (ThData × List Cell)
  | [] => none
  | .th d :: rest => some (d, rest)
  | .td _ :: rest => findThSplit rest

/-- find_next_sibling("td"): the first td among the following cells,
    together with the cells after it. -/
def findNextTd : List Cell → Option (TdData × List Cell)
  | [] => none
  | .td d :: rest => some (d, rest)
  | .th _ :: rest => findNextTd rest

/-- name_cell.find_next_sibling("td").find_next_sibling("td") (line 70):
    the second td after the name header.  none models the AttributeError
    the code raises when the first sibling search already fails. -/
def findPartyCellAfter (sibs : List Cell) : Option TdData :=
  match findNextTd sibs with
  | none => none
  | some (_, rest) =>
    match findNextTd rest with
    | none => none
    | some (d, _) => some d

/-- Python href.lstrip("#"): drop every leading "#". -/
def lstripHash (s : String) : String :=
  ⟨s.data.dropWhile (fun c => c == '#')⟩

/-- wiki_path for a name header (line 67): the href of its first anchor, ""
    when there is no anchor; none models the KeyError of wiki_link["href"]
    when the anchor has no href attribute. -/
def wikiPathOf (th : ThData) : Option String :=
  match th.link with
  | some a => a.href
  | none => some ""

/-- Note text contributed by one sup marker (lines 76-89): when its anchor
    points at a cite_note id that resolves to a glossary li carrying a
    reference-text span, the note is that span's text with bracketed
    citation numbers removed and then stripped; otherwise nothing. -/
def citeTarget (doc : RosterDoc) (sup : SupData) : Option String :=
  match sup.link with
  | none => none
  | some a =>
    if Util.strStarts (a.href.getD "") "#cite_note" then
      match doc.lis.find? (fun li => li.id == lstripHash (a.href.getD "")) with
      | some li =>
        match li.refText with
        | some t => some (Util.pyStrip (Util.removeBrackets t))
        | none => none
      | none => none
    else none

/-- The notes variable after the loop over the party cell's sups
    (lines 74-90): it starts empty and each sup that fully resolves
    overwrites it, so the last resolving sup wins. -/
def notesOf (doc : RosterDoc) (sups : List SupData) : String :=
  sups.foldl (fun acc sup =>
    match citeTarget doc sup with
    | some t => t
    | none => acc) ""

/-- The sup elements of the party cell, in order (find_all("sup")). -/
def supsOf (d : TdData) : List SupData :=
  d.nodes.filterMap (fun n =>
    match n with
    | .frag _ => none
    | .sup s => some s)

/-- A senator record: the tuple (name, state, party, website, notes) the
    code builds.  Slot website holds the wiki path after the roster parse
    and the resolved website after the merge step. -/
structure Senator where
  name : String
  state : String
  party : String
  website : String
  notes : String
deriving DecidableEq, Repr, Inhabited

/-- Record built for one name-header row (lines 65-93): name, the carried
    state, the party text with sups decomposed, the wiki path and the
    resolved notes.  none models the uncaught KeyError and AttributeError
    paths, in the order the code reaches them. -/
def buildRecord (doc : RosterDoc) (th : ThData) (sibs : List Cell)
    (st : String) : Option Senator :=
  match wikiPathOf th with
  | none => none
  | some wp =>
    match findPartyCellAfter sibs with
    | none => none
    | some pc =>
      some { name := th.text
           , state := st
           , party := tdTextClean pc
           , website := wp
           , notes := notesOf doc (supsOf pc) }

/-- State update at the head of each loop turn (lines 58-61): a rowspan="2"
    td overwrites current_state with its stripped text. -/
def stateUpd (cur : String) (row : Row) : String :=
  match findStateCell row with
  | some d => tdTextAll d
  | none => cur

/-- The roster row walk (lines 55-93).  cur is the running current_state;
    Python initialises it to None and tests it for truthiness, so None and
    "" behave identically and cur is a plain string starting as "".  A row
    first updates the state from its rowspan="2" td, then emits a record
    when it has a th header and the state is non-empty. -/
def parseRows (doc : RosterDoc) : List Row → String → Option (List Senator)
  | [], _ => some []
  | row :: rest, cur =>
    match findThSplit row with
    | some (th, sibs) =>
      if stateUpd cur row ≠ "" then
        match buildRecord doc th sibs (stateUpd cur row) with
        | none => none
        | some rec =>
          match parseRows doc rest (stateUpd cur row) with
          | none => none
          | some tl => some (rec :: tl)
      else parseRows doc rest (stateUpd cur row)
    | none => parseRows doc rest (stateUpd cur row)

/-- The roster parse of get_senators before the website resolution. -/
def parseRoster (doc : RosterDoc) : Option (List Senator) :=
  parseRows doc doc.rows ""

/-- One cell of the infobox used by get_senate_website: whether it is a th,
    its full text (get_text()), and its first anchor (td.find("a")). -/
structure IbCell where
  isTh : Bool
  text : String
  firstLink : Option AData
deriving DecidableEq, Repr

/-- The infobox table of a senator page: its rows of cells. -/
abbrev Infobox := List (List IbCell)

/-- Each th of one row paired with the cells following it, in order; over
    all rows this is the infobox.find_all("th") iteration with enough
    context for find_next_sibling. -/
def thsWithSibs : List IbCell → List (IbCell × List IbCell)
  | [] => []
  | c :: rest =>
    (if c.isTh then [(c, rest)] else []) ++ thsWithSibs rest

/-- All th cells of the infobox in document order, each with its following
    sibling cells. -/
def infoboxThs (ib : Infobox) : List (IbCell × List IbCell) :=
  (ib.map thsWithSibs).flatten

/-- find_next_sibling("td") among infobox cells. -/
def findNextTdIb : List IbCell → Option IbCell
  | [] => none
  | c :: rest => if c.isTh then findNextTdIb rest else some c

/-- The loop of get_senate_website (lines 22-29): for each th whose text
    contains "Website", look for the next td sibling and its first anchor;
    the first th for which both exist returns that anchor's href (or ""
    when the href attribute is absent), and the loop otherwise continues. -/
def scanThList : List (IbCell × List IbCell) → String
  | [] => ""
  | (th, sibs) :: rest =>
    if Util.containsSub th.text "Website" then
      match findNextTdIb sibs with
      | some td =>
        match td.firstLink with
        | some a => a.href.getD ""
        | none => scanThList rest
      | none => scanThList rest
    else scanThList rest

/-- get_senate_website (lines 11-30) on a successfully fetched page, given
    as soup.find("table", class_="infobox"): none models a page without an
    infobox. -/
def get_senate_website (page : Option Infobox) : String :=
  match page with
  | some ib => scanThList (infoboxThs ib)
  | none => ""

/-- Whether one th entry makes get_senate_website return: its text contains
    "Website", a td sibling follows, and that td has an anchor. -/
def thYields (p : IbCell × List IbCell) : Bool :=
  Util.containsSub p.1.text "Website" &&
    (match findNextTdIb p.2 with
     | some td => td.firstLink.isSome
     | none => false)

/-- The href a th entry would return. -/
def thHref (p : IbCell × List IbCell) : String :=
  match findNextTdIb p.2 with
  | some td =>
    match td.firstLink with
    | some a => a.href.getD ""
    | none => ""
  | none => ""

/-- Restatement of the claim about get_senate_website in the spec's words:
    the href of the first link in the cell adjacent to a row header whose
    label contains "Website" (the first header for which cell and link
    exist), and "" otherwise. -/
def websiteSpec (page : Option Infobox) : String :=
  match page with
  | none => ""
  | some ib =>
    match (infoboxThs ib).find? thYields with
    | some p => thHref p
    | none => ""

/-- Warning line printed when a website task fails (line 110). -/
def warnMsg (name e : String) : String :=
  "  Warning: could not fetch website for " ++ name ++ ": " ++ e

/-- The as_completed loop (lines 106-110).  resolve i is the outcome of the
    task submitted for record i (ok website or error message); order is the
    completion order; ws is the websites array.  Returns the final array
    and the warning lines in print order. -/
def runCompletions (names : List String) (resolve : Nat → Except String String) :
    List Nat → List String → List String × List String
  | [], ws => (ws, [])
  | i :: rest, ws =>
    match resolve i with
    | .ok v => runCompletions names resolve rest (ws.set i v)
    | .error e =>
      let p := runCompletions names resolve rest ws
      (p.1, warnMsg (names.getD i "") e :: p.2)

/-- Indices entered into future_to_index: the dict comprehension over
    enumerate(senators) keeps i exactly when senator[3], the wiki path, is
    non-empty (lines 100-104).  The counter argument is the enumerate
    index of the head. -/
def subsFrom (k : Nat) : List Senator → List Nat
  | [] => []
  | s :: rest =>
    (if s.website ≠ "" then [k] else []) ++ subsFrom (k + 1) rest

/-- The submitted indices, in enumerate order. -/
def submittedIndices (senators : List Senator) : List Nat :=
  subsFrom 0 senators

/-- The rebuild loop (lines 113-116): each record is copied with its slot 3
    replaced by websites[i].  The counter argument is the enumerate index
    of the head. -/
def mergeFrom (k : Nat) (ws : List String) : List Senator → List Senator
  | [] => []
  | s :: rest => { s with website := ws.getD k "" } :: mergeFrom (k + 1) ws rest

/-- The final list comprehension of get_senators. -/
def mergeStep (senators : List Senator) (ws : List String) : List Senator :=
  mergeFrom 0 ws senators

/-- The website-resolution half of get_senators (lines 96-116) on an
    already-parsed senator list: pre-sized websites array of empty strings,
    completion loop, then the merge.  Returns the final records and the
    printed warnings. -/
def resolveAndMerge (senators : List Senator) (resolve : Nat → Except String String)
    (order : List Nat) : List Senator × List String :=
  let ws0 := List.replicate senators.length ""
  let p := runCompletions (senators.map (fun s => s.name)) resolve order ws0
  (mergeStep senators p.1, p.2)

/-- get_senators (lines 33-118), with the roster page given as a parsed
    document, the per-task outcomes as resolve and the task completion
    order as order; none models the uncaught parse-time exceptions. -/
def get_senators (doc : RosterDoc) (resolve : Nat → Except String String)
    (order : List Nat) : Option (List Senator × List String) :=
  match parseRoster doc with
  | none => none
  | some senators => some (resolveAndMerge senators resolve order)

/-- Rows that contain a name header cell (used to state the roster-walk
    claim, which counts one record per such row). -/
def countNameHeaderRows (rows : List Row) : Nat :=
  rows.countP (fun r => (findThSplit r).isSome)

/-- Record the spec's roster-walk words build for a qualifying row: name
    from the header, the carried state, party from the second td after the
    header with sups stripped, the wiki path, and the resolved notes. -/
def specRecord (doc : RosterDoc) (th : ThData) (sibs : List Cell)
    (st : String) : Senator :=
  { name := th.text
  , state := st
  , party := ((findPartyCellAfter sibs).map tdTextClean).getD ""
  , website := (wikiPathOf th).getD ""
  , notes := ((findPartyCellAfter sibs).map (fun pc => notesOf doc (supsOf pc))).getD "" }

/-- Restatement of the roster walk in the spec's words, as amended: carry
    the most recently seen state across rows and emit one record for every
    name-header row once a non-empty state has been seen. -/
def rosterWalkSpec (doc : RosterDoc) : List Row → String → List Senator
  | [], _ => []
  | row :: rest, cur =>
    match findThSplit row with
    | some (th, sibs) =>
      if stateUpd cur row ≠ "" then
        specRecord doc th sibs (stateUpd cur row) ::
          rosterWalkSpec doc rest (stateUpd cur row)
      else rosterWalkSpec doc rest (stateUpd cur row)
    | none => rosterWalkSpec doc rest (stateUpd cur row)

end Scrape

namespace Pool

/-- Modelled from the spec: the ThreadPoolExecutor construction of
    src/scrape_senators.py line 99 with max_workers=10.  The executor
    itself is Python standard-library code that is not part of this
    repository, so its worker pool is modelled here after the spec's
    description of a bounded worker pool: a fixed set of workers, each
    running at most one task at a time. -/
def max_workers : Nat := 10

/-- Pool size the code chooses for a batch: the literal 10, independent of
    the batch. -/
def poolSizeFor (batch : List Scrape.Senator) : Nat :=
  let _ := batch
  max_workers

/-- Modelled from the spec: a state of a worker pool with w workers; each
    worker is either idle or holds the index of the task it is running,
    and pending lists the not-yet-started task indices. -/
structure PoolState (w : Nat) where
  pending : List Nat
  workers : Fin w → Option Nat

/-- Number of tasks in flight: the workers currently holding a task. -/
def inFlight {w : Nat} (s : PoolState w) : Nat :=
  (Finset.univ.filter (fun k => (s.workers k).isSome)).card

end Pool

deriving instance DecidableEq for Except

namespace Fix

/-- A two-senator roster document used to instantiate universally
    quantified theorems: one Alabama state cell spanning two rows, two
    name-header rows. -/
def docA : Scrape.RosterDoc :=
  { rows := [
      [Scrape.Cell.td ⟨true, [Scrape.TdNode.frag " Alabama "]⟩,
       Scrape.Cell.th ⟨"Alice", some ⟨some "/wiki/Alice"⟩⟩,
       Scrape.Cell.td ⟨false, []⟩,
       Scrape.Cell.td ⟨false, [Scrape.TdNode.frag "Republican"]⟩],
      [Scrape.Cell.th ⟨"Bob", some ⟨some "/wiki/Bob"⟩⟩,
       Scrape.Cell.td ⟨false, []⟩,
       Scrape.Cell.td ⟨false, [Scrape.TdNode.frag "Democratic"]⟩]]
  , lis := [] }

/-- The records docA parses to. -/
def sensA : List Scrape.Senator :=
  [⟨"Alice", "Alabama", "Republican", "/wiki/Alice", ""⟩,
   ⟨"Bob", "Alabama", "Democratic", "/wiki/Bob", ""⟩]

/-- Task outcomes where both submitted tasks succeed. -/
def resolveA : Nat → Except String String :=
  fun i => if i == 0 then Except.ok "https://a.senate.gov"
           else Except.ok "https://b.senate.gov"

/-- A three-senator batch: records 0 and 2 carry wiki paths, record 1 does
    not. -/
def sensB : List Scrape.Senator :=
  [⟨"Alice", "Alabama", "R", "/wiki/Alice", ""⟩,
   ⟨"Bob", "Alabama", "D", "", ""⟩,
   ⟨"Cara", "Alaska", "R", "/wiki/Cara", ""⟩]

/-- Task outcomes where the task of record 2 fails and every other task
    succeeds. -/
def resolveB : Nat → Except String String :=
  fun i => if i == 2 then Except.error "boom"
           else Except.ok "https://a.senate.gov"

/-- The value each succeeding task resolves in the resolveB scenario. -/
def valB : Nat → String := fun _ => "https://a.senate.gov"

/-- A one-senator batch whose only record has an empty wiki path. -/
def sensC : List Scrape.Senator :=
  [⟨"Eve", "Maine", "R", "", ""⟩]

/-- A roster document with a footnote-annotated party cell: the sup marker
    links to a cite_note entry of the glossary. -/
def docD : Scrape.RosterDoc :=
  { rows := [
      [Scrape.Cell.td ⟨true, [Scrape.TdNode.frag "Alaska"]⟩,
       Scrape.Cell.th ⟨"Dana", some ⟨some "/wiki/Dana"⟩⟩,
       Scrape.Cell.td ⟨false, []⟩,
       Scrape.Cell.td ⟨false, [Scrape.TdNode.frag "Republican",
         Scrape.TdNode.sup ⟨some ⟨some "#cite_note-n1"⟩, "[b]"⟩]⟩]]
  , lis := [⟨"cite_note-n1", some "Seat note [ 12 ] here"⟩] }

/-- The party cell of docD's only row. -/
def pcD : Scrape.TdData :=
  ⟨false, [Scrape.TdNode.frag "Republican",
    Scrape.TdNode.sup ⟨some ⟨some "#cite_note-n1"⟩, "[b]"⟩]⟩

/-- The sup marker of pcD. -/
def supD : Scrape.SupData := ⟨some ⟨some "#cite_note-n1"⟩, "[b]"⟩

/-- The cells that follow docD's name header. -/
def sibsD : List Scrape.Cell :=
  [Scrape.Cell.td ⟨false, []⟩, Scrape.Cell.td pcD]

/-- The name header of docD's only row. -/
def thD : Scrape.ThData := ⟨"Dana", some ⟨some "/wiki/Dana"⟩⟩

/-- A one-record batch for the merge-step claim. -/
def sensD : List Scrape.Senator :=
  [⟨"Dan", "Delaware", "D", "/wiki/Dan", "n1"⟩]

/-- A one-entry results array for the merge-step claim. -/
def wsD : List String := ["https://d.senate.gov"]

/-- A roster whose single row has a name header and a full set of party
    cells but no state cell anywhere: the walk never sees a state. -/
def docE : Scrape.RosterDoc :=
  { rows := [
      [Scrape.Cell.th ⟨"Frank", some ⟨some "/wiki/Frank"⟩⟩,
       Scrape.Cell.td ⟨false, []⟩,
       Scrape.Cell.td ⟨false, [Scrape.TdNode.frag "Republican"]⟩]]
  , lis := [] }

end Fix

theorem strData_append (s t : String) : (s ++ t).data = s.data ++ t.data := by
  cases s
  cases t
  rfl

theorem listStarts_append_of (n : List Char) :
    ∀ (h t : List Char), Util.listStarts n h = true →
    Util.listStarts n (h ++ t) = true := by
  induction n with
  | nil => intro h t _; rfl
  | cons a as ih =>
    intro h t hs
    cases h with
    | nil => simp [Util.listStarts] at hs
    | cons b bs =>
      simp only [Util.listStarts, Bool.and_eq_true] at hs
      simp only [List.cons_append, Util.listStarts, Bool.and_eq_true]
      exact ⟨hs.1, ih bs t hs.2⟩

theorem listContains_of_listStarts (n h : List Char)
    (hs : Util.listStarts n h = true) : Util.listContains n h = true := by
  cases h with
  | nil =>
    cases n with
    | nil => rfl
    | cons b bs => simp [Util.listStarts] at hs
  | cons c rest => simp [Util.listContains, hs]

theorem containsSub_of_starts (pre m needle : String)
    (h : Util.listStarts needle.data pre.data = true) :
    Util.containsSub (pre ++ m) needle = true := by
  unfold Util.containsSub
  rw [strData_append]
  exact listContains_of_listStarts _ _ (listStarts_append_of _ _ _ h)

theorem getD_set_self (v d : String) :
    ∀ (l : List String) (i : Nat), i < l.length → (l.set i v).getD i d = v := by
  intro l
  induction l with
  | nil => intro i h; simp at h
  | cons a as ih =>
    intro i h
    cases i with
    | zero => rfl
    | succ n =>
      have hn : n < as.length := by simpa using h
      simpa [List.set] using ih n hn

theorem getD_set_ne (v d : String) :
    ∀ (l : List String) (i j : Nat), i ≠ j →
    (l.set i v).getD j d = l.getD j d := by
  intro l
  induction l with
  | nil => intro i j _; simp [List.set]
  | cons a as ih =>
    intro i j hij
    cases i with
    | zero =>
      cases j with
      | zero => exact absurd rfl hij
      | succ n => simp [List.set]
    | succ m =>
      cases j with
      | zero => simp [List.set]
      | succ n =>
        have : m ≠ n := fun he => hij (by rw [he])
        simpa [List.set] using ih m n this

theorem getD_replicate (x : String) :
    ∀ (n i : Nat), (List.replicate n x).getD i x = x := by
  intro n
  induction n with
  | zero => intro i; simp [List.replicate]
  | succ m ih =>
    intro i
    cases i with
    | zero => rfl
    | succ k =>
      rw [List.replicate, List.getD_cons_succ]
      exact ih k

theorem mapName_getD (f : Scrape.Senator → String) :
    ∀ (l : List Scrape.Senator) (i : Nat), i < l.length →
    (l.map f).getD i "" = f (l.getD i default) := by
  intro l
  induction l with
  | nil => intro i h; simp at h
  | cons a as ih =>
    intro i h
    cases i with
    | zero => rfl
    | succ n =>
      have hn : n < as.length := by simpa using h
      simpa using ih n hn

theorem runCompletions_length (names : List String)
    (resolve : Nat → Except String String) :
    ∀ (order : List Nat) (ws : List String),
    (Scrape.runCompletions names resolve order ws).1.length = ws.length := by
  intro order
  induction order with
  | nil => intro ws; rfl
  | cons i rest ih =>
    intro ws
    cases hres : resolve i with
    | ok v => simpa [Scrape.runCompletions, hres] using ih (ws.set i v)
    | error e => simpa [Scrape.runCompletions, hres] using ih ws

theorem runCompletions_getD (names : List String)
    (resolve : Nat → Except String String) :
    ∀ (order : List Nat) (ws : List String) (j : Nat),
    order.Nodup → j < ws.length →
    (Scrape.runCompletions names resolve order ws).1.getD j "" =
      (if j ∈ order then
        match resolve j with
        | .ok v => v
        | .error _ => ws.getD j ""
      else ws.getD j "") := by
  intro order
  induction order with
  | nil => intro ws j _ _; simp [Scrape.runCompletions]
  | cons i rest ih =>
    intro ws j hnd hj
    have hni : i ∉ rest := (List.nodup_cons.mp hnd).1
    have hnd2 : rest.Nodup := (List.nodup_cons.mp hnd).2
    by_cases hij : j = i
    · subst hij
      cases hres : resolve j with
      | ok v =>
        have hlen : j < (ws.set j v).length := by simpa using hj
        have hrec := ih (ws.set j v) j hnd2 hlen
        rw [if_neg hni] at hrec
        simp only [Scrape.runCompletions, hres]
        rw [hrec, getD_set_self v "" ws j hj]
        simp [hres]
      | error e =>
        have hrec := ih ws j hnd2 hj
        rw [if_neg hni] at hrec
        simp only [Scrape.runCompletions, hres]
        rw [hrec]
        simp [hres]
    · have hiff : ∀ (X Y : String),
          (if j ∈ rest then X else Y) = (if j ∈ i :: rest then X else Y) := by
        intro X Y
        by_cases hjr : j ∈ rest
        · rw [if_pos hjr, if_pos (List.mem_cons_of_mem i hjr)]
        · have hno : j ∉ i :: rest := by simp [List.mem_cons, hij, hjr]
          rw [if_neg hjr, if_neg hno]
      cases hres : resolve i with
      | ok v =>
        have hlen : j < (ws.set i v).length := by simpa using hj
        have hrec := ih (ws.set i v) j hnd2 hlen
        simp only [Scrape.runCompletions, hres]
        rw [hrec, getD_set_ne v "" ws i j (fun he => hij he.symm)]
        cases hresj : resolve j with
        | ok w => simp only [hresj]; exact hiff w (ws.getD j "")
        | error e2 => simp only [hresj]; exact hiff (ws.getD j "") (ws.getD j "")
      | error e =>
        have hrec := ih ws j hnd2 hj
        simp only [Scrape.runCompletions, hres]
        rw [hrec]
        cases hresj : resolve j with
        | ok w => simp only [hresj]; exact hiff w (ws.getD j "")
        | error e2 => simp only [hresj]; exact hiff (ws.getD j "") (ws.getD j "")

theorem runCompletions_warns (names : List String)
    (resolve : Nat → Except String String) :
    ∀ (order : List Nat) (ws : List String),
    (Scrape.runCompletions names resolve order ws).2 =
      order.filterMap (fun i =>
        match resolve i with
        | .ok _ => none
        | .error e => some (Scrape.warnMsg (names.getD i "") e)) := by
  intro order
  induction order with
  | nil => intro ws; rfl
  | cons i rest ih =>
    intro ws
    cases hres : resolve i with
    | ok v => simp [Scrape.runCompletions, hres, ih (ws.set i v)]
    | error e => simp [Scrape.runCompletions, hres, ih ws]

theorem filterMap_single (f : Nat → Option String) :
    ∀ (l : List Nat) (i : Nat) (m : String), l.Nodup → i ∈ l →
    f i = some m → (∀ k, k ∈ l → k ≠ i → f k = none) →
    l.filterMap f = [m] := by
  intro l
  induction l with
  | nil => intro i m _ hi _ _; simp at hi
  | cons a rest ih =>
    intro i m hnd hi hf hothers
    have hna : a ∉ rest := (List.nodup_cons.mp hnd).1
    have hnd2 : rest.Nodup := (List.nodup_cons.mp hnd).2
    by_cases hai : a = i
    · subst hai
      have hrest : rest.filterMap f = [] := by
        rw [List.filterMap_eq_nil_iff]
        intro k hk
        exact hothers k (List.mem_cons_of_mem a hk)
          (fun he => hna (he ▸ hk))
      simp [List.filterMap_cons, hf, hrest]
    · have hi2 : i ∈ rest := by
        cases List.mem_cons.mp hi with
        | inl h => exact absurd h.symm hai
        | inr h => exact h
      have hfa : f a = none := hothers a (List.mem_cons_self a rest) hai
      have := ih i m hnd2 hi2 hf
        (fun k hk hki => hothers k (List.mem_cons_of_mem a hk) hki)
      simp [List.filterMap_cons, hfa, this]

theorem subsFrom_mem :
    ∀ (l : List Scrape.Senator) (k j : Nat),
    j ∈ Scrape.subsFrom k l ↔
      ∃ m, m < l.length ∧ j = k + m ∧ (l.getD m default).website ≠ "" := by
  intro l
  induction l with
  | nil => intro k j; simp [Scrape.subsFrom]
  | cons s rest ih =>
    intro k j
    simp only [Scrape.subsFrom, List.mem_append]
    constructor
    · intro h
      cases h with
      | inl h0 =>
        have hw : s.website ≠ "" := by
          by_contra hww
          simp [hww] at h0
        have hj : j = k := by
          rw [if_pos hw] at h0
          simpa using h0
        exact ⟨0, by simp, by omega, by simpa using hw⟩
      | inr h1 =>
        obtain ⟨m, hm, hj, hw⟩ := (ih (k + 1) j).mp h1
        exact ⟨m + 1, by simpa using hm, by omega, by simpa using hw⟩
    · rintro ⟨m, hm, hj, hw⟩
      cases m with
      | zero =>
        left
        have hw0 : s.website ≠ "" := by simpa using hw
        rw [if_pos hw0]
        simp
        omega
      | succ n =>
        right
        refine (ih (k + 1) j).mpr ⟨n, by simpa using hm, by omega, by simpa using hw⟩

theorem subsFrom_ge :
    ∀ (l : List Scrape.Senator) (k j : Nat),
    j ∈ Scrape.subsFrom k l → k ≤ j := by
  intro l k j h
  obtain ⟨m, _, hj, _⟩ := (subsFrom_mem l k j).mp h
  omega

theorem subsFrom_nodup :
    ∀ (l : List Scrape.Senator) (k : Nat), (Scrape.subsFrom k l).Nodup := by
  intro l
  induction l with
  | nil => intro k; simp [Scrape.subsFrom]
  | cons s rest ih =>
    intro k
    simp only [Scrape.subsFrom]
    by_cases hw : s.website ≠ ""
    · rw [if_pos hw]
      simp only [List.singleton_append, List.nodup_cons]
      refine ⟨fun hmem => ?_, ih (k + 1)⟩
      have := subsFrom_ge rest (k + 1) k hmem
      omega
    · rw [if_neg hw]
      simpa using ih (k + 1)

theorem mergeFrom_length (ws : List String) :
    ∀ (l : List Scrape.Senator) (k : Nat),
    (Scrape.mergeFrom k ws l).length = l.length := by
  intro l
  induction l with
  | nil => intro k; rfl
  | cons s rest ih => intro k; simpa [Scrape.mergeFrom] using ih (k + 1)

theorem mergeFrom_getD (ws : List String) :
    ∀ (l : List Scrape.Senator) (k m : Nat), m < l.length →
    (Scrape.mergeFrom k ws l).getD m default =
      { l.getD m default with website := ws.getD (k + m) "" } := by
  intro l
  induction l with
  | nil => intro k m h; simp at h
  | cons s rest ih =>
    intro k m h
    cases m with
    | zero => rfl
    | succ n =>
      have hn : n < rest.length := by simpa using h
      have := ih (k + 1) n hn
      simp only [Scrape.mergeFrom]
      have harith : k + 1 + n = k + (n + 1) := by omega
      rw [List.getD_cons_succ, List.getD_cons_succ, this, harith]

theorem buildRecord_eq_spec (doc : Scrape.RosterDoc) (th : Scrape.ThData)
    (sibs : List Scrape.Cell) (st : String) (rec : Scrape.Senator)
    (h : Scrape.buildRecord doc th sibs st = some rec) :
    rec = Scrape.specRecord doc th sibs st := by
  unfold Scrape.buildRecord at h
  cases hwp : Scrape.wikiPathOf th with
  | none => rw [hwp] at h; simp at h
  | some wp =>
    rw [hwp] at h
    cases hpc : Scrape.findPartyCellAfter sibs with
    | none => rw [hpc] at h; simp at h
    | some pc =>
      rw [hpc] at h
      simp only [Option.some.injEq] at h
      unfold Scrape.specRecord
      rw [hwp, hpc, ← h]
      simp

theorem parseRows_eq_spec (doc : Scrape.RosterDoc) :
    ∀ (rows : List Scrape.Row) (cur : String) (out : List Scrape.Senator),
    Scrape.parseRows doc rows cur = some out →
    out = Scrape.rosterWalkSpec doc rows cur := by
  intro rows
  induction rows with
  | nil =>
    intro cur out h
    simp only [Scrape.parseRows, Option.some.injEq] at h
    rw [← h]
    rfl
  | cons row rest ih =>
    intro cur out h
    cases hth : Scrape.findThSplit row with
    | none =>
      simp only [Scrape.parseRows, hth] at h
      simp only [Scrape.rosterWalkSpec, hth]
      exact ih (Scrape.stateUpd cur row) out h
    | some p =>
      obtain ⟨th, sibs⟩ := p
      simp only [Scrape.parseRows, hth] at h
      simp only [Scrape.rosterWalkSpec, hth]
      by_cases hst : Scrape.stateUpd cur row ≠ ""
      · rw [if_pos hst] at h
        rw [if_pos hst]
        cases hb : Scrape.buildRecord doc th sibs (Scrape.stateUpd cur row) with
        | none =>
          simp only [hb] at h
          exact Option.noConfusion h
        | some rec =>
          simp only [hb] at h
          cases hp : Scrape.parseRows doc rest (Scrape.stateUpd cur row) with
          | none =>
            simp only [hp] at h
            exact Option.noConfusion h
          | some tl =>
            simp only [hp, Option.some.injEq] at h
            rw [← h]
            rw [buildRecord_eq_spec doc th sibs (Scrape.stateUpd cur row) rec hb]
            rw [ih (Scrape.stateUpd cur row) tl hp]
      · rw [if_neg hst] at h
        rw [if_neg hst]
        exact ih (Scrape.stateUpd cur row) out h

theorem scanThList_eq :
    ∀ (l : List (Scrape.IbCell × List Scrape.IbCell)),
    Scrape.scanThList l =
      (match l.find? Scrape.thYields with
       | some p => Scrape.thHref p
       | none => "") := by
  intro l
  induction l with
  | nil => rfl
  | cons p rest ih =>
    obtain ⟨th, sibs⟩ := p
    by_cases hw : Util.containsSub th.text "Website" = true
    · cases htd : Scrape.findNextTdIb sibs with
      | none =>
        have hy : Scrape.thYields (th, sibs) = false := by
          simp [Scrape.thYields, htd]
        rw [List.find?_cons_of_neg _ (by simp [hy])]
        simpa [Scrape.scanThList, hw, htd] using ih
      | some td =>
        cases hl : td.firstLink with
        | none =>
          have hy : Scrape.thYields (th, sibs) = false := by
            simp [Scrape.thYields, htd, hl]
          rw [List.find?_cons_of_neg _ (by simp [hy])]
          simpa [Scrape.scanThList, hw, htd, hl] using ih
        | some a =>
          have hy : Scrape.thYields (th, sibs) = true := by
            simp [Scrape.thYields, htd, hl, hw]
          rw [List.find?_cons_of_pos _ hy]
          simp [Scrape.scanThList, hw, htd, hl, Scrape.thHref]
    · have hwf : Util.containsSub th.text "Website" = false :=
        Bool.eq_false_iff.mpr hw
      have hy : Scrape.thYields (th, sibs) = false := by
        simp [Scrape.thYields, hwf]
      rw [List.find?_cons_of_neg _ (by simp [hy])]
      simpa [Scrape.scanThList, hwf] using ih

theorem submitted_mem_iff (senators : List Scrape.Senator) (i : Nat) :
    i ∈ Scrape.submittedIndices senators ↔
      i < senators.length ∧ (senators.getD i default).website ≠ "" := by
  unfold Scrape.submittedIndices
  rw [subsFrom_mem]
  constructor
  · rintro ⟨m, hm, hi, hw⟩
    have him : i = m := by omega
    exact ⟨by omega, by rw [him]; exact hw⟩
  · rintro ⟨hlt, hw⟩
    exact ⟨i, hlt, by omega, hw⟩

theorem resolveAndMerge_length (senators : List Scrape.Senator)
    (resolve : Nat → Except String String) (order : List Nat) :
    (Scrape.resolveAndMerge senators resolve order).1.length = senators.length := by
  unfold Scrape.resolveAndMerge Scrape.mergeStep
  simp only
  exact mergeFrom_length _ senators 0

theorem resolveAndMerge_out (senators : List Scrape.Senator)
    (resolve : Nat → Except String String) (order : List Nat)
    (hperm : order.Perm (Scrape.submittedIndices senators))
    (i : Nat) (hi : i < senators.length) :
    (Scrape.resolveAndMerge senators resolve order).1.getD i default =
      { senators.getD i default with
        website :=
          if i ∈ Scrape.submittedIndices senators then
            (match resolve i with
             | Except.ok v => v
             | Except.error _ => "")
          else "" } := by
  have hnodup : order.Nodup :=
    (List.Perm.nodup_iff hperm).mpr (subsFrom_nodup senators 0)
  have hilen : i < (List.replicate senators.length ("" : String)).length := by
    simpa using hi
  have hrun := runCompletions_getD (senators.map (fun s => s.name)) resolve order
      (List.replicate senators.length "") i hnodup hilen
  rw [getD_replicate] at hrun
  unfold Scrape.resolveAndMerge Scrape.mergeStep
  simp only
  rw [mergeFrom_getD _ senators 0 i hi, Nat.zero_add, hrun]
  by_cases hmem : i ∈ Scrape.submittedIndices senators
  · rw [if_pos ((List.Perm.mem_iff hperm).mpr hmem), if_pos hmem]
  · rw [if_neg (fun hmo => hmem ((List.Perm.mem_iff hperm).mp hmo)), if_neg hmem]

theorem resolveAndMerge_warns (senators : List Scrape.Senator)
    (resolve : Nat → Except String String) (order : List Nat) :
    (Scrape.resolveAndMerge senators resolve order).2 =
      order.filterMap (fun i =>
        match resolve i with
        | Except.ok _ => none
        | Except.error e =>
          some (Scrape.warnMsg ((senators.map (fun s => s.name)).getD i "") e)) := by
  unfold Scrape.resolveAndMerge
  simp only
  exact runCompletions_warns _ resolve order _

/-- C4: the request URL built by get_pokemon_data is the fixed endpoint
    prefix followed by the lowercased input name, so any two names that
    differ only in letter case produce the identical URL; in particular
    "PIKACHU", "PiKaChu" and "pikachu" all give the pikachu endpoint. -/
theorem pokemon_url_case_insensitive (s t : String) (h : Poke.eqUpToCase s t) :
    Poke.pokemonURL s = "https://pokeapi.co/api/v2/pokemon/" ++ Util.pyLower s ∧
    Poke.pokemonURL s = Poke.pokemonURL t ∧
    Poke.pokemonURL "PIKACHU" = "https://pokeapi.co/api/v2/pokemon/pikachu" ∧
    Poke.pokemonURL "PiKaChu" = "https://pokeapi.co/api/v2/pokemon/pikachu" ∧
    Poke.pokemonURL "pikachu" = "https://pokeapi.co/api/v2/pokemon/pikachu" := by
  refine ⟨rfl, ?_, by decide, by decide, by decide⟩
  unfold Poke.pokemonURL Util.pyLower
  exact congrArg (fun x => "https://pokeapi.co/api/v2/pokemon/" ++ x)
    (congrArg String.mk h)

/-- C4 witness: the theorem instantiated at "PiKaChu" and "pikachu". -/
theorem pokemon_url_case_insensitive_witness :
    Poke.pokemonURL "PiKaChu" =
      "https://pokeapi.co/api/v2/pokemon/" ++ Util.pyLower "PiKaChu" ∧
    Poke.pokemonURL "PiKaChu" = Poke.pokemonURL "pikachu" ∧
    Poke.pokemonURL "PIKACHU" = "https://pokeapi.co/api/v2/pokemon/pikachu" ∧
    Poke.pokemonURL "PiKaChu" = "https://pokeapi.co/api/v2/pokemon/pikachu" ∧
    Poke.pokemonURL "pikachu" = "https://pokeapi.co/api/v2/pokemon/pikachu" :=
  pokemon_url_case_insensitive "PiKaChu" "pikachu"
    (by unfold Poke.eqUpToCase; decide)

/-- C3: on any transport exception from requests.get or any HTTP error
    status raised by raise_for_status, get_pokemon_data returns none and
    prints a line containing "Error fetching Pokemon data"; on a
    non-exceptional response it returns the parsed body and prints no such
    line. -/
theorem pokemon_fetch_error_reporting (env : String → Poke.GetResult)
    (name : String) :
    (∀ e, env (Poke.pokemonURL name) = Poke.GetResult.raised e →
      (Poke.get_pokemon_data env name).1 = none ∧
      ∃ m, m ∈ (Poke.get_pokemon_data env name).2 ∧
        Util.containsSub m "Error fetching Pokemon data" = true) ∧
    (∀ r em, env (Poke.pokemonURL name) = Poke.GetResult.response r →
      r.httpErr = some em →
      (Poke.get_pokemon_data env name).1 = none ∧
      ∃ m, m ∈ (Poke.get_pokemon_data env name).2 ∧
        Util.containsSub m "Error fetching Pokemon data" = true) ∧
    (∀ r, env (Poke.pokemonURL name) = Poke.GetResult.response r →
      r.httpErr = none →
      (Poke.get_pokemon_data env name).1 = some r.body ∧
      ∀ m, m ∈ (Poke.get_pokemon_data env name).2 →
        Util.containsSub m "Error fetching Pokemon data" = false) := by
  refine ⟨?_, ?_, ?_⟩
  · intro e he
    refine ⟨by simp [Poke.get_pokemon_data, he],
      "Error fetching Pokemon data: " ++ Poke.excMsg e,
      by simp [Poke.get_pokemon_data, he], ?_⟩
    exact containsSub_of_starts "Error fetching Pokemon data: " (Poke.excMsg e)
      "Error fetching Pokemon data" (by decide)
  · intro r em hr he
    refine ⟨by simp [Poke.get_pokemon_data, hr, he],
      "Error fetching Pokemon data: " ++ em,
      by simp [Poke.get_pokemon_data, hr, he], ?_⟩
    exact containsSub_of_starts "Error fetching Pokemon data: " em
      "Error fetching Pokemon data" (by decide)
  · intro r hr he
    constructor
    · simp [Poke.get_pokemon_data, hr, he]
    · intro m hm
      simp [Poke.get_pokemon_data, hr, he] at hm

/-- C3 witness: the theorem instantiated at an environment whose request
    times out, and at one returning an HTTP error status. -/
theorem pokemon_fetch_error_reporting_witness :
    ((Poke.get_pokemon_data
        (fun _ => Poke.GetResult.raised (Poke.ReqException.timeout "t"))
        "pikachu").1 = none ∧
      ∃ m, m ∈ (Poke.get_pokemon_data
        (fun _ => Poke.GetResult.raised (Poke.ReqException.timeout "t"))
        "pikachu").2 ∧
        Util.containsSub m "Error fetching Pokemon data" = true) ∧
    ((Poke.get_pokemon_data
        (fun _ => Poke.GetResult.response ⟨some "404", "x"⟩)
        "pikachu").1 = none ∧
      ∃ m, m ∈ (Poke.get_pokemon_data
        (fun _ => Poke.GetResult.response ⟨some "404", "x"⟩)
        "pikachu").2 ∧
        Util.containsSub m "Error fetching Pokemon data" = true) :=
  ⟨(pokemon_fetch_error_reporting
      (fun _ => Poke.GetResult.raised (Poke.ReqException.timeout "t"))
      "pikachu").1 (Poke.ReqException.timeout "t") rfl,
   (pokemon_fetch_error_reporting
      (fun _ => Poke.GetResult.response ⟨some "404", "x"⟩)
      "pikachu").2.1 ⟨some "404", "x"⟩ "404" rfl rfl⟩

/-- C1: for every parsed roster and every completion order of the
    submitted website tasks, get_senators returns a sequence of the same
    length as the parsed roster whose records keep the roster-scan order
    (name, state, party and notes unchanged at every index), and every
    successfully resolved website is written to the slot of the record
    that submitted it, never to another slot. -/
theorem senators_order_preserved (doc : Scrape.RosterDoc)
    (resolve : Nat → Except String String) (order : List Nat)
    (senators : List Scrape.Senator)
    (hp : Scrape.parseRoster doc = some senators)
    (hperm : order.Perm (Scrape.submittedIndices senators)) :
    Scrape.get_senators doc resolve order =
      some (Scrape.resolveAndMerge senators resolve order) ∧
    (Scrape.resolveAndMerge senators resolve order).1.length = senators.length ∧
    (∀ i, i < senators.length →
      ((Scrape.resolveAndMerge senators resolve order).1.getD i default).name =
        (senators.getD i default).name ∧
      ((Scrape.resolveAndMerge senators resolve order).1.getD i default).state =
        (senators.getD i default).state ∧
      ((Scrape.resolveAndMerge senators resolve order).1.getD i default).party =
        (senators.getD i default).party ∧
      ((Scrape.resolveAndMerge senators resolve order).1.getD i default).notes =
        (senators.getD i default).notes) ∧
    (∀ i v, i ∈ Scrape.submittedIndices senators → resolve i = Except.ok v →
      ((Scrape.resolveAndMerge senators resolve order).1.getD i default).website = v) := by
  refine ⟨?_, resolveAndMerge_length senators resolve order, ?_, ?_⟩
  · unfold Scrape.get_senators
    rw [hp]
  · intro i hi
    rw [resolveAndMerge_out senators resolve order hperm i hi]
    exact ⟨rfl, rfl, rfl, rfl⟩
  · intro i v hi hok
    have hlt : i < senators.length := ((submitted_mem_iff senators i).mp hi).1
    rw [resolveAndMerge_out senators resolve order hperm i hlt]
    simp [if_pos hi, hok]

/-- C1 witness: a concrete two-senator roster resolved in reversed
    completion order. -/
theorem senators_order_preserved_witness :
    Scrape.get_senators Fix.docA Fix.resolveA [1, 0] =
      some (Scrape.resolveAndMerge Fix.sensA Fix.resolveA [1, 0]) ∧
    (Scrape.resolveAndMerge Fix.sensA Fix.resolveA [1, 0]).1.length = 2 ∧
    ((Scrape.resolveAndMerge Fix.sensA Fix.resolveA [1, 0]).1.getD 0 default).name =
      "Alice" ∧
    ((Scrape.resolveAndMerge Fix.sensA Fix.resolveA [1, 0]).1.getD 1 default).website =
      "https://b.senate.gov" := by
  obtain ⟨h1, h2, h3, h4⟩ := senators_order_preserved Fix.docA Fix.resolveA [1, 0]
    Fix.sensA (by decide) (by decide)
  refine ⟨h1, h2, (h3 0 (by decide)).1, ?_⟩
  exact h4 1 "https://b.senate.gov" (by decide) (by decide)

/-- C2: with the task of record i failing and every other submitted task
    succeeding, the resolver keeps length and roster order, resolves
    record i to the empty website, prints exactly one warning carrying
    record i's name, and gives every other submitted record the value its
    own task resolved. -/
theorem resolver_single_failure (senators : List Scrape.Senator)
    (resolve : Nat → Except String String) (order : List Nat)
    (i : Nat) (e : String) (w : Nat → String)
    (hperm : order.Perm (Scrape.submittedIndices senators))
    (hi : i ∈ Scrape.submittedIndices senators)
    (herr : resolve i = Except.error e)
    (hok : ∀ j, j ∈ Scrape.submittedIndices senators → j ≠ i →
      resolve j = Except.ok (w j)) :
    (Scrape.resolveAndMerge senators resolve order).1.length = senators.length ∧
    (∀ k, k < senators.length →
      ((Scrape.resolveAndMerge senators resolve order).1.getD k default).name =
        (senators.getD k default).name ∧
      ((Scrape.resolveAndMerge senators resolve order).1.getD k default).state =
        (senators.getD k default).state ∧
      ((Scrape.resolveAndMerge senators resolve order).1.getD k default).party =
        (senators.getD k default).party ∧
      ((Scrape.resolveAndMerge senators resolve order).1.getD k default).notes =
        (senators.getD k default).notes) ∧
    ((Scrape.resolveAndMerge senators resolve order).1.getD i default).website = "" ∧
    (∀ j, j ∈ Scrape.submittedIndices senators → j ≠ i →
      ((Scrape.resolveAndMerge senators resolve order).1.getD j default).website = w j) ∧
    (Scrape.resolveAndMerge senators resolve order).2 =
      [Scrape.warnMsg ((senators.getD i default).name) e] := by
  have hnodup : order.Nodup :=
    (List.Perm.nodup_iff hperm).mpr (subsFrom_nodup senators 0)
  have hlt : i < senators.length := ((submitted_mem_iff senators i).mp hi).1
  refine ⟨resolveAndMerge_length senators resolve order, ?_, ?_, ?_, ?_⟩
  · intro k hk
    rw [resolveAndMerge_out senators resolve order hperm k hk]
    exact ⟨rfl, rfl, rfl, rfl⟩
  · rw [resolveAndMerge_out senators resolve order hperm i hlt]
    simp [if_pos hi, herr]
  · intro j hj hji
    have hjlt : j < senators.length := ((submitted_mem_iff senators j).mp hj).1
    rw [resolveAndMerge_out senators resolve order hperm j hjlt]
    simp [if_pos hj, hok j hj hji]
  · have hmap : (senators.map (fun s => s.name)).getD i "" =
        (senators.getD i default).name := mapName_getD _ senators i hlt
    rw [resolveAndMerge_warns, ← hmap]
    exact filterMap_single _ order i _ hnodup ((List.Perm.mem_iff hperm).mpr hi)
      (by simp [herr])
      (fun k hk hki => by simp [hok k ((List.Perm.mem_iff hperm).mp hk) hki])

/-- C2 witness: batch of three records, the task of record 2 fails, the
    task of record 0 succeeds, record 1 was never submitted. -/
theorem resolver_single_failure_witness :
    (Scrape.resolveAndMerge Fix.sensB Fix.resolveB [2, 0]).1.length = 3 ∧
    ((Scrape.resolveAndMerge Fix.sensB Fix.resolveB [2, 0]).1.getD 2 default).website =
      "" ∧
    ((Scrape.resolveAndMerge Fix.sensB Fix.resolveB [2, 0]).1.getD 0 default).website =
      "https://a.senate.gov" ∧
    ((Scrape.resolveAndMerge Fix.sensB Fix.resolveB [2, 0]).1.getD 2 default).name =
      "Cara" ∧
    (Scrape.resolveAndMerge Fix.sensB Fix.resolveB [2, 0]).2 =
      [Scrape.warnMsg "Cara" "boom"] := by
  obtain ⟨h1, h2, h3, h4, h5⟩ := resolver_single_failure Fix.sensB Fix.resolveB
    [2, 0] 2 "boom" Fix.valB (by decide) (by decide) (by decide) (by decide)
  exact ⟨h1, h3, h4 0 (by decide) (by decide), (h2 2 (by decide)).1, h5⟩

/-- C5: the merge step changes only the website slot: at every index the
    output record keeps the name, state, party and notes of the input
    record and takes its website from the results array. -/
theorem merge_frame_effect (senators : List Scrape.Senator) (ws : List String)
    (i : Nat) (hi : i < senators.length) :
    (Scrape.mergeStep senators ws).length = senators.length ∧
    ((Scrape.mergeStep senators ws).getD i default).name =
      (senators.getD i default).name ∧
    ((Scrape.mergeStep senators ws).getD i default).state =
      (senators.getD i default).state ∧
    ((Scrape.mergeStep senators ws).getD i default).party =
      (senators.getD i default).party ∧
    ((Scrape.mergeStep senators ws).getD i default).notes =
      (senators.getD i default).notes ∧
    ((Scrape.mergeStep senators ws).getD i default).website = ws.getD i "" := by
  have h := mergeFrom_getD ws senators 0 i hi
  rw [Nat.zero_add] at h
  unfold Scrape.mergeStep
  rw [h]
  exact ⟨mergeFrom_length ws senators 0, rfl, rfl, rfl, rfl, rfl⟩

/-- C5 witness: a concrete one-record merge. -/
theorem merge_frame_effect_witness :
    (Scrape.mergeStep Fix.sensD Fix.wsD).length = 1 ∧
    ((Scrape.mergeStep Fix.sensD Fix.wsD).getD 0 default).name = "Dan" ∧
    ((Scrape.mergeStep Fix.sensD Fix.wsD).getD 0 default).state = "Delaware" ∧
    ((Scrape.mergeStep Fix.sensD Fix.wsD).getD 0 default).party = "D" ∧
    ((Scrape.mergeStep Fix.sensD Fix.wsD).getD 0 default).notes = "n1" ∧
    ((Scrape.mergeStep Fix.sensD Fix.wsD).getD 0 default).website =
      "https://d.senate.gov" :=
  merge_frame_effect Fix.sensD Fix.wsD 0 (by decide)

/-- C6: a record whose secondary-page reference is empty is never
    submitted and its output website stays empty; when every reference is
    empty, nothing at all is submitted and all websites stay empty. -/
theorem empty_reference_skipped (senators : List Scrape.Senator)
    (resolve : Nat → Except String String) (order : List Nat)
    (hperm : order.Perm (Scrape.submittedIndices senators)) :
    (∀ i, i < senators.length → (senators.getD i default).website = "" →
      i ∉ Scrape.submittedIndices senators ∧
      ((Scrape.resolveAndMerge senators resolve order).1.getD i default).website = "") ∧
    ((∀ i, i < senators.length → (senators.getD i default).website = "") →
      Scrape.submittedIndices senators = [] ∧
      (∀ i, i < senators.length →
        ((Scrape.resolveAndMerge senators resolve order).1.getD i default).website = "")) := by
  constructor
  · intro i hi hw
    have hnot : i ∉ Scrape.submittedIndices senators := by
      intro hmem
      exact ((submitted_mem_iff senators i).mp hmem).2 hw
    refine ⟨hnot, ?_⟩
    rw [resolveAndMerge_out senators resolve order hperm i hi]
    simp [hnot]
  · intro hall
    have hsubs : Scrape.submittedIndices senators = [] := by
      apply List.eq_nil_iff_forall_not_mem.mpr
      intro i hmem
      obtain ⟨hlt, hw⟩ := (submitted_mem_iff senators i).mp hmem
      exact hw (hall i hlt)
    refine ⟨hsubs, ?_⟩
    intro i hi
    rw [resolveAndMerge_out senators resolve order hperm i hi]
    have hnot : i ∉ Scrape.submittedIndices senators := by
      rw [hsubs]
      simp
    simp [hnot]

/-- C6 witness: the one-record batch with an empty reference: not
    submitted, website empty, submitted list empty. -/
theorem empty_reference_skipped_witness :
    (0 ∉ Scrape.submittedIndices Fix.sensC ∧
      ((Scrape.resolveAndMerge Fix.sensC Fix.resolveA []).1.getD 0 default).website = "") ∧
    Scrape.submittedIndices Fix.sensC = [] := by
  obtain ⟨h1, h2⟩ := empty_reference_skipped Fix.sensC Fix.resolveA [] (by decide)
  exact ⟨h1 0 (by decide) rfl, (h2 (by decide)).1⟩

/-- C7: for every fetched page, get_senate_website returns the href of the
    first link in the td adjacent to the first "Website" row header for
    which such a cell and link exist, and the empty string in every other
    case (no infobox, no matching header, no adjacent cell, no link) —
    stated as equality with the spec-side description websiteSpec. -/
theorem senate_website_extraction (page : Option Scrape.Infobox) :
    Scrape.get_senate_website page = Scrape.websiteSpec page := by
  cases page with
  | none => rfl
  | some ib =>
    simp only [Scrape.get_senate_website, Scrape.websiteSpec]
    exact scanThList_eq (Scrape.infoboxThs ib)

/-- C8 counterexample: docE's single row has a name header and a full set
    of party cells, but no state cell has been seen, and the parser emits
    no record for it — the claim as stated promises exactly one record
    per name-header row. -/
theorem roster_walk_counterexample :
    Scrape.parseRoster Fix.docE = some [] ∧
    Scrape.countNameHeaderRows Fix.docE.rows = 1 ∧
    ([] : List Scrape.Senator).length = 0 :=
  ⟨by decide, by decide, rfl⟩

/-- C8 (amended): the roster parser walks rows top to bottom carrying the
    most recently seen state forward; every row with a name header yields
    exactly one record attributed to the carried state — the party taken
    from the second td sibling after the name cell — provided a non-empty
    state has been seen, while a name-header row before any state cell
    yields no record. -/
theorem roster_walk_characterisation (doc : Scrape.RosterDoc)
    (out : List Scrape.Senator)
    (h : Scrape.parseRoster doc = some out) :
    out = Scrape.rosterWalkSpec doc doc.rows "" :=
  parseRows_eq_spec doc doc.rows "" out h

/-- C8 witness: the concrete two-row roster docA. -/
theorem roster_walk_characterisation_witness :
    ([⟨"Alice", "Alabama", "Republican", "/wiki/Alice", ""⟩,
      ⟨"Bob", "Alabama", "Democratic", "/wiki/Bob", ""⟩] : List Scrape.Senator) =
      Scrape.rosterWalkSpec Fix.docA Fix.docA.rows "" :=
  roster_walk_characterisation Fix.docA
    [⟨"Alice", "Alabama", "Republican", "/wiki/Alice", ""⟩,
     ⟨"Bob", "Alabama", "Democratic", "/wiki/Bob", ""⟩] (by decide)

/-- C9: the record built for a roster row takes its party text from the
    party cell with every sup footnote marker removed (so neither the
    marker nor its bracketed citation number can appear in it); a party
    cell without sups yields empty notes, and a single resolving footnote
    yields the glossary reference text with bracketed citation numbers
    removed and surrounding whitespace stripped. -/
theorem footnote_party_and_notes (doc : Scrape.RosterDoc) (th : Scrape.ThData)
    (sibs : List Scrape.Cell) (st : String) (pc : Scrape.TdData)
    (rec : Scrape.Senator)
    (hpc : Scrape.findPartyCellAfter sibs = some pc)
    (hrec : Scrape.buildRecord doc th sibs st = some rec) :
    rec.party = Scrape.tdTextClean pc ∧
    (Scrape.supsOf pc = [] → rec.notes = "") ∧
    (∀ sup a li t, Scrape.supsOf pc = [sup] → sup.link = some a →
      Util.strStarts (a.href.getD "") "#cite_note" = true →
      doc.lis.find? (fun li2 => li2.id == Scrape.lstripHash (a.href.getD "")) =
        some li →
      li.refText = some t →
      rec.notes = Util.pyStrip (Util.removeBrackets t)) := by
  unfold Scrape.buildRecord at hrec
  cases hwp : Scrape.wikiPathOf th with
  | none =>
    rw [hwp] at hrec
    exact Option.noConfusion hrec
  | some wp =>
    rw [hwp, hpc] at hrec
    simp only [Option.some.injEq] at hrec
    rw [← hrec]
    refine ⟨rfl, ?_, ?_⟩
    · intro hs
      show Scrape.notesOf doc (Scrape.supsOf pc) = ""
      rw [hs]
      rfl
    · intro sup a li t hs hl hc hfind ht
      show Scrape.notesOf doc (Scrape.supsOf pc) =
        Util.pyStrip (Util.removeBrackets t)
      rw [hs]
      simp only [Scrape.notesOf, List.foldl, Scrape.citeTarget, hl, hc,
        if_pos, hfind, ht]

/-- C9 witness: the footnote-annotated row of docD. -/
theorem footnote_party_and_notes_witness :
    (⟨"Dana", "Alaska", "Republican", "/wiki/Dana", "Seat note here"⟩ :
      Scrape.Senator).party = Scrape.tdTextClean Fix.pcD ∧
    (⟨"Dana", "Alaska", "Republican", "/wiki/Dana", "Seat note here"⟩ :
      Scrape.Senator).notes =
      Util.pyStrip (Util.removeBrackets "Seat note [ 12 ] here") := by
  obtain ⟨h1, h2, h3⟩ := footnote_party_and_notes Fix.docD Fix.thD Fix.sibsD
    "Alaska" Fix.pcD
    ⟨"Dana", "Alaska", "Republican", "/wiki/Dana", "Seat note here"⟩
    (by decide) (by decide)
  exact ⟨h1, h3 Fix.supD ⟨some "#cite_note-n1"⟩
    ⟨"cite_note-n1", some "Seat note [ 12 ] here"⟩ "Seat note [ 12 ] here"
    (by decide) rfl (by decide) (by decide) rfl⟩

/-- C10: the pool the code constructs has exactly 10 workers whatever the
    batch is, and a state of a 10-worker pool never has more than 10 tasks
    in flight, because each worker runs at most one task at a time. -/
theorem bounded_concurrency (batch : List Scrape.Senator)
    (s : Pool.PoolState (Pool.poolSizeFor batch)) :
    Pool.poolSizeFor batch = 10 ∧ Pool.inFlight s ≤ 10 := by
  refine ⟨rfl, ?_⟩
  have h1 : Pool.inFlight s ≤
      (Finset.univ : Finset (Fin (Pool.poolSizeFor batch))).card :=
    Finset.card_filter_le _ _
  simpa [Pool.poolSizeFor, Pool.max_workers] using h1

